import Mathlib

/-! Formal model of the SERVEL electoral scraper core (scraper_modular.py):
the name normalizers, the leaf extractor over rendered result tables, the
hierarchy walker with its global leaf cap and error policy, and the
accumulator / matrix assembler.  Pure data is embedded over lists, strings,
naturals and rationals; the remote browser session is abstracted as an
environment of selection outcomes and rendered tables. -/

/-- Case table for Python str.upper / str.lower over the alphabet this
scraper meets: ASCII letters plus the Spanish accented letters. -/
def mapaMinMay : List (Char × Char) :=
  [('a', 'A'), ('b', 'B'), ('c', 'C'), ('d', 'D'), ('e', 'E'), ('f', 'F'),
   ('g', 'G'), ('h', 'H'), ('i', 'I'), ('j', 'J'), ('k', 'K'), ('l', 'L'),
   ('m', 'M'), ('n', 'N'), ('o', 'O'), ('p', 'P'), ('q', 'Q'), ('r', 'R'),
   ('s', 'S'), ('t', 'T'), ('u', 'U'), ('v', 'V'), ('w', 'W'), ('x', 'X'),
   ('y', 'Y'), ('z', 'Z'), ('á', 'Á'), ('é', 'É'), ('í', 'Í'), ('ó', 'Ó'),
   ('ú', 'Ú'), ('ñ', 'Ñ'), ('ü', 'Ü')]

/-- Python-style upper-casing of one character. -/
def pyToUpper (c : Char) : Char :=
  ((mapaMinMay.find? (fun p => p.1 == c)).map Prod.snd).getD c

/-- Python-style lower-casing of one character. -/
def pyToLower (c : Char) : Char :=
  ((mapaMinMay.find? (fun p => p.2 == c)).map Prod.fst).getD c

/-- Python str.upper. -/
def pyUpper (s : String) : String := ⟨s.data.map pyToUpper⟩

/-- Python str.lower. -/
def pyLower (s : String) : String := ⟨s.data.map pyToLower⟩

/-- Python str.capitalize: first character upper-cased, the rest lower-cased. -/
def pyCapitalize (s : String) : String :=
  match s.data with
  | [] => ⟨[]⟩
  | c :: cs => ⟨pyToUpper c :: cs.map pyToLower⟩

/-- Python str.strip: drop leading and trailing whitespace. -/
def pyStrip (s : String) : String :=
  ⟨((s.data.dropWhile Char.isWhitespace).reverse.dropWhile Char.isWhitespace).reverse⟩

/-- Accumulator pass behind `pySplit`: current reversed word in `acc`. -/
def palabrasAux : List Char → List Char → List String
  | [], acc => if acc.isEmpty then [] else [⟨acc.reverse⟩]
  | c :: cs, acc =>
    if c.isWhitespace then
      if acc.isEmpty then palabrasAux cs [] else ⟨acc.reverse⟩ :: palabrasAux cs []
    else palabrasAux cs (c :: acc)

/-- Python str.split with no argument: whitespace-separated words, empties dropped. -/
def pySplit (s : String) : List String := palabrasAux s.data []

/-- Does the second character list start with the first one. -/
def empiezaCon : List Char → List Char → Bool
  | [], _ => true
  | _ :: _, [] => false
  | c :: cs, d :: ds => c == d && empiezaCon cs ds

/-- Python substring test `agu in s` on character lists. -/
def contieneSub (agu : List Char) : List Char → Bool
  | [] => agu.isEmpty
  | c :: cs => empiezaCon agu (c :: cs) || contieneSub agu cs

/-- Python substring test `agu in s` on strings. -/
def contieneSubStr (agu s : String) : Bool := contieneSub agu.data s.data

/-- Lexicographic (code-point) comparison of character lists; models the
ordering Python `sorted` and pandas `sort_values` use on strings. -/
def leCadena : List Char → List Char → Bool
  | [], _ => true
  | _ :: _, [] => false
  | c :: cs, d :: ds => if c < d then true else if d < c then false else leCadena cs ds

/-- Lexicographic comparison on strings. -/
def leStr (s t : String) : Bool := leCadena s.data t.data

/-- The string order as a relation, for the sorting lemmas. -/
def rStr (s t : String) : Prop := leStr s t = true

instance : DecidableRel rStr := fun s t => by unfold rStr; infer_instance

/-- Digit-string value, base ten. -/
def valorDigitos (cs : List Char) : ℕ :=
  cs.foldl (fun a c => a * 10 + (c.toNat - 48)) 0

/-- Python int(s) on a string already known to pass str.isdigit. -/
def pyInt (s : String) : ℕ := valorDigitos s.data

/-- Python str.isdigit: non-empty and all digits. -/
def esDigitos (s : String) : Bool := !s.data.isEmpty && s.data.all Char.isDigit

/-- Models Python float() on the plain decimal literals this scraper can
meet after its own preprocessing: optional sign, integer digits, optional
dot and fraction digits.  Exponents, infinities and similar float() inputs
never occur in the percentage column and are not modelled. -/
def parseDecimal (s : String) : Option ℚ :=
  let conSigno : Bool × List Char :=
    match s.data with
    | '-' :: resto => (true, resto)
    | '+' :: resto => (false, resto)
    | cs => (false, cs)
  let neg := conSigno.1
  let cs := conSigno.2
  let entera := cs.takeWhile (fun c => c ≠ '.')
  let resto := cs.dropWhile (fun c => c ≠ '.')
  let valor : ℚ → Option ℚ := fun v => some (if neg then -v else v)
  match resto with
  | [] =>
    if !entera.isEmpty && entera.all Char.isDigit then valor (valorDigitos entera) else none
  | _ :: frac =>
    if (entera.all Char.isDigit && frac.all Char.isDigit)
        && (!entera.isEmpty || !frac.isEmpty) then
      valor ((valorDigitos entera : ℚ) + (valorDigitos frac : ℚ) / (10 : ℚ) ^ frac.length)
    else none

/-- Remove every occurrence of a character (Python str.replace(c, '')). -/
def quitarCaracter (c : Char) (s : String) : String := ⟨s.data.filter (fun d => d ≠ c)⟩

/-- Replace every occurrence of a character (Python str.replace(c, d)). -/
def reemplazarCaracter (c d : Char) (s : String) : String :=
  ⟨s.data.map (fun e => if e = c then d else e)⟩

/-- Roman-numeral tokens kept fully upper-case by the comuna normalizer
(source: `excepciones` in normalizar_nombre_comuna). -/
def excepcionesRomanos : List String :=
  ["II", "III", "IV", "VI", "VII", "X", "XIV", "XV", "XVI", "XVIII", "XIX"]

/-- Per-token transform of normalizar_nombre_comuna: Roman numerals stay
upper-case; a token starting with the lower-case eñe keeps the accented
letter and capitalizes the remaining slice; every other token is
capitalized. -/
def transformarPalabraComuna (palabra : String) : String :=
  if pyUpper palabra ∈ excepcionesRomanos then pyUpper palabra
  else
    match palabra.data with
    | 'ñ' :: resto => ⟨'Ñ' :: (pyCapitalize ⟨resto⟩).data⟩
    | _ => pyCapitalize palabra

/-- Connector-word corrections applied by normalizar_nombre_comuna; the
source applies them with whole-word regular-expression substitution over
the joined name, modelled token-wise. -/
def correcciones : List (String × String) :=
  [("De", "de"), ("Del", "del"), ("La", "la"), ("Las", "las"),
   ("Los", "los"), ("Y", "y"), ("E", "e"), ("En", "en"), ("Con", "con")]

/-- Sequential application of the connector corrections to one token. -/
def aplicarCorrecciones (palabra : String) : String :=
  correcciones.foldl (fun w p => if w = p.1 then p.2 else w) palabra

/-- Known proper names that override the computed comuna form
(source: `nombres_especificos`). -/
def nombresEspecificos : List (String × String) :=
  [("Arica", "Arica"), ("Iquique", "Iquique"), ("Antofagasta", "Antofagasta"),
   ("Copiapó", "Copiapó"), ("La Serena", "La Serena"), ("Coquimbo", "Coquimbo"),
   ("Valparaíso", "Valparaíso"), ("Viña del Mar", "Viña del Mar"),
   ("Santiago", "Santiago"), ("Rancagua", "Rancagua"), ("Talca", "Talca"),
   ("Chillán", "Chillán"), ("Concepción", "Concepción"), ("Temuco", "Temuco"),
   ("Valdivia", "Valdivia"), ("Puerto Montt", "Puerto Montt"),
   ("Coyhaique", "Coyhaique"), ("Punta Arenas", "Punta Arenas"),
   ("Ñuñoa", "Ñuñoa"), ("Providencia", "Providencia"),
   ("Las Condes", "Las Condes"), ("Maipú", "Maipú"),
   ("San Bernardo", "San Bernardo"), ("Puente Alto", "Puente Alto")]

/-- normalizar_nombre_comuna: lower-case, split, transform each token,
apply the connector corrections, join, then look the result up in the
proper-name table. -/
def normalizarNombreComuna (nombreComuna : String) : String :=
  let nombreMinusculas := pyLower nombreComuna
  let palabras := pySplit nombreMinusculas
  let capitalizadas := palabras.map transformarPalabraComuna
  let nombreNormalizado := " ".intercalate (capitalizadas.map aplicarCorrecciones)
  match nombresEspecificos.find? (fun p => p.1 == nombreNormalizado) with
  | some p => p.2
  | none => nombreNormalizado

/-- Known raw region labels and their short canonical names
(source: `mapeo_especial` in normalizar_nombre_region). -/
def mapeoEspecialRegion : List (String × String) :=
  [("METROPOLITANA DE SANTIAGO", "Metropolitana"),
   ("DEL LIBERTADOR GENERAL BERNARDO O\x27HIGGINS", "Libertador"),
   ("DEL MAULE", "Maule"),
   ("DEL BIOBIO", "Biobío"),
   ("DE ARICA Y PARINACOTA", "Arica y Parinacota"),
   ("DE TARAPACA", "Tarapacá"),
   ("DE ANTOFAGASTA", "Antofagasta"),
   ("DE ATACAMA", "Atacama"),
   ("DE COQUIMBO", "Coquimbo"),
   ("DE VALPARAISO", "Valparaíso"),
   ("DE ÑUBLE", "Ñuble"),
   ("DE LA ARAUCANIA", "La Araucanía"),
   ("DE LOS RIOS", "Los Ríos"),
   ("DE LOS LAGOS", "Los Lagos"),
   ("DE AYSEN DEL GENERAL CARLOS IBAÑEZ DEL CAMPO", "Aysén"),
   ("DE MAGALLANES Y DE LA ANTARTICA CHILENA", "Magallanes")]

/-- Leading prepositional pattern removal of normalizar_nombre_region: the
ordered regular-expression alternation (DE then DEL, each followed by at
least one whitespace character, case-insensitive) with the matched piece
and the following whitespace removed. -/
def quitarPrefijoRegion (s : String) : String :=
  match s.data with
  | c0 :: c1 :: c2 :: resto =>
    if pyToUpper c0 = 'D' ∧ pyToUpper c1 = 'E' then
      if c2.isWhitespace then ⟨resto.dropWhile Char.isWhitespace⟩
      else if pyToUpper c2 = 'L' then
        match resto with
        | c3 :: resto2 =>
          if c3.isWhitespace then ⟨resto2.dropWhile Char.isWhitespace⟩ else s
        | [] => s
      else s
    else s
  | _ => s

/-- Connector tokens lower-cased by normalizar_nombre_region after the
first word. -/
def conectoresRegion : List String := ["Y", "O", "DE", "DEL"]

/-- normalizar_nombre_region: exact table hit on the upper-cased label,
else strip the prepositional pattern, capitalize the first token and fix
connector tokens afterwards. -/
def normalizarNombreRegion (nombreRegion : String) : String :=
  match mapeoEspecialRegion.find? (fun p => p.1 == pyUpper nombreRegion) with
  | some p => p.2
  | none =>
    let nombreNormalizado := quitarPrefijoRegion nombreRegion
    let palabras := pySplit nombreNormalizado
    match palabras with
    | [] => ""
    | primera :: resto =>
      " ".intercalate
        (pyCapitalize primera ::
          resto.map (fun w =>
            if pyUpper w ∈ conectoresRegion then pyLower w else pyCapitalize w))

/-- Exact-match pass of simplificar_nombre_candidato over the ordered
alias table: first key equal to the prepared label wins. -/
def buscarExacta : List (String × String) → String → Option String
  | [], _ => none
  | (largo, corto) :: resto, n => if n = largo then some corto else buscarExacta resto n

/-- Partial-match pass of simplificar_nombre_candidato: first key that is
a substring of the prepared label wins. -/
def buscarParcial : List (String × String) → String → Option String
  | [], _ => none
  | (largo, corto) :: resto, n =>
    if contieneSubStr largo n then some corto else buscarParcial resto n

/-- Fallback slug of simplificar_nombre_candidato: the last whitespace
token, lower-cased, every character outside [a-zA-Z0-9_] replaced by an
underscore. -/
def slugApellido (palabra : String) : String :=
  ⟨(pyLower palabra).data.map (fun c =>
    if ('a' ≤ c ∧ c ≤ 'z') ∨ ('A' ≤ c ∧ c ≤ 'Z') ∨ ('0' ≤ c ∧ c ≤ '9') ∨ c = '_'
    then c else '_')⟩

/-- simplificar_nombre_candidato: exact table match on the upper-cased,
stripped label, then first substring match in table order, then the
last-token slug, with a fixed sentinel for token-less labels. -/
def simplificarNombreCandidato (mapeo : List (String × String)) (nombreCompleto : String) :
    String :=
  match buscarExacta mapeo (pyStrip (pyUpper nombreCompleto)) with
  | some corto => corto
  | none =>
    match buscarParcial mapeo (pyStrip (pyUpper nombreCompleto)) with
    | some corto => corto
    | none =>
      match (pySplit nombreCompleto).getLast? with
      | some ultima => slugApellido ultima
      | none => "candidato_desconocido"

/-- One named quantity of a leaf result: a vote count and a share. -/
structure DatosEntidad where
  votos : ℕ
  porcentaje : ℚ
deriving DecidableEq, Repr

/-- An entity record: an insertion-ordered mapping entity name to data. -/
abbrev RegistroEntidades := List (String × DatosEntidad)

/-- Python dict assignment d[k] = v on an association list: overwrite the
existing binding in place, append when the key is new. -/
def dictInsert {α β : Type} [DecidableEq α] : List (α × β) → α → β → List (α × β)
  | [], k, v => [(k, v)]
  | (k0, v0) :: resto, k, v =>
    if k0 = k then (k, v) :: resto else (k0, v0) :: dictInsert resto k v

/-- Python dict lookup d.get(k). -/
def dictLookup {α β : Type} [DecidableEq α] : List (α × β) → α → Option β
  | [], _ => none
  | (k0, v0) :: resto, k => if k0 = k then some v0 else dictLookup resto k

/-- The keys of an association list, in insertion order. -/
def dictKeys {α β : Type} (l : List (α × β)) : List α := l.map Prod.fst

/-- Marker tokens that identify the results table. -/
def palabrasClaveTabla : List String :=
  ["CANDIDATO", "VOTOS", "PORCENTAJE", "PARTIDO", "BLANCO", "NULO", "EMITIDO"]

/-- Guard words that disqualify a row label from being a candidate. -/
def palabrasGuarda : List String := ["TOTAL", "VOTACIÓN", "CANDIDATO", "PARTIDO"]

/-- One rendered table: its visibility, its full rendered text and the td
cell texts of each row. -/
structure Tabla where
  visible : Bool
  texto : String
  filas : List (List String)
deriving DecidableEq, Repr

/-- _encontrar_tabla_resultados: the first displayed table whose rendered
text contains a marker token; none models both the bounded-wait timeout
(no table in the document) and the no-marker-table case. -/
def encontrarTablaResultados (tablas : List Tabla) : Option Tabla :=
  tablas.find? (fun t =>
    t.visible && palabrasClaveTabla.any (fun p => contieneSubStr p (pyUpper t.texto)))

/-- _procesar_fila: classify one row of at least three cells and record
its parsed count and share under the classified entity name. -/
def procesarFila (mapeo : List (String × String)) (celdas : List String)
    (datosCandidatos datosTotales : RegistroEntidades) :
    RegistroEntidades × RegistroEntidades :=
  match celdas with
  | c0 :: c1 :: c2 :: _ =>
    let nombre := pyStrip c0
    let votosTexto := quitarCaracter '.' (pyStrip c1)
    let porcentajeTexto := reemplazarCaracter ',' '.' (quitarCaracter '%' (pyStrip c2))
    let votos := if esDigitos votosTexto then pyInt votosTexto else 0
    let porcentaje : ℚ :=
      if porcentajeTexto = "" then 0 else (parseDecimal porcentajeTexto).getD 0
    let nombreUpper := pyUpper nombre
    if contieneSubStr "BLANCO" nombreUpper then
      (datosCandidatos, dictInsert datosTotales "blanco" ⟨votos, porcentaje⟩)
    else if contieneSubStr "NULO" nombreUpper then
      (datosCandidatos, dictInsert datosTotales "nulo" ⟨votos, porcentaje⟩)
    else if contieneSubStr "EMITIDO" nombreUpper || contieneSubStr "TOTAL" nombreUpper then
      (datosCandidatos, dictInsert datosTotales "emitidos" ⟨votos, porcentaje⟩)
    else if nombre ≠ "" ∧ palabrasGuarda.all (fun p => !contieneSubStr p nombreUpper) then
      (dictInsert datosCandidatos (simplificarNombreCandidato mapeo nombre) ⟨votos, porcentaje⟩,
       datosTotales)
    else (datosCandidatos, datosTotales)
  | _ => (datosCandidatos, datosTotales)

/-- Row loop of _procesar_tabla_resultados: rows with at least three cells. -/
def procesarFilas (mapeo : List (String × String)) (filas : List (List String)) :
    RegistroEntidades × RegistroEntidades :=
  filas.foldl
    (fun acc f => if 3 ≤ f.length then procesarFila mapeo f acc.1 acc.2 else acc)
    ([], [])

/-- _procesar_tabla_resultados: locate the results table and fold its
rows; none when the table cannot be located (the one hard failure). -/
def procesarTablaResultados (mapeo : List (String × String)) (tablas : List Tabla) :
    Option (RegistroEntidades × RegistroEntidades) :=
  match encontrarTablaResultados tablas with
  | none => none
  | some t => some (procesarFilas mapeo t.filas)

/-- The remote state a comuna selection leads to: whether driving the
selection control succeeded, and the tables rendered afterwards. -/
structure EstadoComuna where
  seleccionOk : Bool
  tablas : List Tabla
deriving DecidableEq, Repr

/-- _extraer_datos_comuna: a failed selection yields the (None, None)
outcome, otherwise the table processing result. -/
def extraerDatosComuna (mapeo : List (String × String)) (ec : EstadoComuna) :
    Option (RegistroEntidades × RegistroEntidades) :=
  if ec.seleccionOk then procesarTablaResultados mapeo ec.tablas else none

/-- LeafKey: the normalized (comuna, region) pair. -/
abbrev Clave := String × String

/-- LeafResult: the two entity namespaces of one leaf. -/
structure RegistroComuna where
  candidatos : RegistroEntidades
  totales : RegistroEntidades
deriving DecidableEq, Repr

/-- Store: datos_completos, an insertion-ordered mapping LeafKey to
LeafResult. -/
abbrev Almacen := List (Clave × RegistroComuna)

/-- All candidate entity names over the Store, with repetitions. -/
def nombresCandidatos (datos : Almacen) : List String :=
  datos.flatMap (fun e => dictKeys e.2.candidatos)

/-- All aggregate entity names over the Store, with repetitions. -/
def nombresTotales (datos : Almacen) : List String :=
  datos.flatMap (fun e => dictKeys e.2.totales)

/-- The set of candidate entity names over the Store. -/
def unionCandidatos (datos : Almacen) : Finset String := (nombresCandidatos datos).toFinset

/-- The set of aggregate entity names over the Store. -/
def unionTotales (datos : Almacen) : Finset String := (nombresTotales datos).toFinset

/-- Python sorted(list(set(l))) over strings. -/
def ordenarConjunto (l : List String) : List String :=
  List.insertionSort rStr l.dedup

/-- todos_candidatos of _crear_dataframe_final: the sorted set of
candidate names seen across the Store. -/
def todosCandidatos (datos : Almacen) : List String :=
  ordenarConjunto (nombresCandidatos datos)

/-- todos_totales of _crear_dataframe_final: the sorted set of aggregate
names seen across the Store. -/
def todosTotales (datos : Almacen) : List String :=
  ordenarConjunto (nombresTotales datos)

/-- One assembled matrix row: the two identity fields and one named
(count, share) cell per schema entity; the source lays each cell out as a
_votos and a _pct column pair. -/
structure FilaMatriz where
  comuna : String
  region : String
  celdas : List (String × DatosEntidad)
deriving DecidableEq, Repr

/-- The dense row of one Store entry: every schema entity present, a
missing entity filled with count 0 and share 0.0. -/
def filaDe (tc tt : List String) (e : Clave × RegistroComuna) : FilaMatriz :=
  { comuna := e.1.1
    region := e.1.2
    celdas :=
      tc.map (fun n => (n, (dictLookup e.2.candidatos n).getD ⟨0, 0⟩)) ++
      tt.map (fun n => (n, (dictLookup e.2.totales n).getD ⟨0, 0⟩)) }

/-- Row comparison of the final sort_values call: region, then comuna. -/
def leFila (f g : FilaMatriz) : Bool :=
  if f.region = g.region then leStr f.comuna g.comuna else leStr f.region g.region

/-- The row order as a relation, for the sorting lemmas. -/
def rFila (f g : FilaMatriz) : Prop := leFila f g = true

instance : DecidableRel rFila := fun f g => by unfold rFila; infer_instance

/-- _crear_dataframe_final: discover the schema from the whole Store,
emit one dense row per Store entry, and sort by region then comuna. -/
def crearDataframeFinal (datos : Almacen) : List String × List FilaMatriz :=
  (todosCandidatos datos ++ todosTotales datos,
   List.insertionSort rFila (datos.map (filaDe (todosCandidatos datos) (todosTotales datos))))

/-- Run counters and the Store.  The intentos field is a ghost counter of
leaf attempts started, added to state the cap property; it is not part of
the source state and no decision reads it. -/
structure EstadoScraper where
  datosCompletos : Almacen
  comunasProcesadas : ℕ
  comunasConError : ℕ
  intentos : ℕ
deriving DecidableEq, Repr

/-- The state a run starts from. -/
def estadoInicial : EstadoScraper := ⟨[], 0, 0, 0⟩

/-- Python truthiness of the cap check guarding each leaf and region:
`if self.max_comunas and self.comunas_procesadas >= self.max_comunas`. -/
def capAlcanzado (maxComunas : Option ℕ) (procesadas : ℕ) : Bool :=
  match maxComunas with
  | none => false
  | some m => !(m == 0) && decide (m ≤ procesadas)

/-- _procesar_region truncation `comunas[:max_comunas]` under the same
truthiness. -/
def limitarComunas {α : Type} (maxComunas : Option ℕ) (comunas : List α) : List α :=
  match maxComunas with
  | none => comunas
  | some m => if m ≠ 0 ∧ m < comunas.length then comunas.take m else comunas

/-- _procesar_comuna_individual: normalize the comuna label, extract,
then either record the result and bump the success counter or bump the
error counter; a falsy candidate record (extraction failure or empty
candidate map) is the error case. -/
def procesarComunaIndividual (mapeo : List (String × String))
    (nombreComuna regionNorm : String) (ec : EstadoComuna) (st : EstadoScraper) :
    EstadoScraper :=
  let comunaNorm := normalizarNombreComuna nombreComuna
  let st1 : EstadoScraper := { st with intentos := st.intentos + 1 }
  match extraerDatosComuna mapeo ec with
  | some (datosCandidatos, datosTotales) =>
    if !datosCandidatos.isEmpty then
      { st1 with
        datosCompletos :=
          dictInsert st1.datosCompletos (comunaNorm, regionNorm)
            ⟨datosCandidatos, datosTotales⟩
        comunasProcesadas := st1.comunasProcesadas + 1 }
    else { st1 with comunasConError := st1.comunasConError + 1 }
  | none => { st1 with comunasConError := st1.comunasConError + 1 }

/-- The comuna loop of _procesar_region: the global cap is checked before
each leaf attempt. -/
def bucleComunas (mapeo : List (String × String)) (maxComunas : Option ℕ)
    (regionNorm : String) :
    List (String × EstadoComuna) → EstadoScraper → EstadoScraper
  | [], st => st
  | (nombre, ec) :: resto, st =>
    if capAlcanzado maxComunas st.comunasProcesadas then st
    else bucleComunas mapeo maxComunas regionNorm resto
      (procesarComunaIndividual mapeo nombre regionNorm ec st)

/-- One region of the environment: its raw label and, for each comuna,
its raw label and the remote state its selection leads to. -/
structure RegionEntorno where
  nombre : String
  comunas : List (String × EstadoComuna)
deriving DecidableEq, Repr

/-- _procesar_region: normalize the region label, move on silently when
no comunas are enumerable, else truncate and run the comuna loop. -/
def procesarRegion (mapeo : List (String × String)) (maxComunas : Option ℕ)
    (re : RegionEntorno) (st : EstadoScraper) : EstadoScraper :=
  if re.comunas.isEmpty then st
  else bucleComunas mapeo maxComunas (normalizarNombreRegion re.nombre)
    (limitarComunas maxComunas re.comunas) st

/-- The region loop of ejecutar_extraccion: cap checked before each
region. -/
def bucleRegiones (mapeo : List (String × String)) (maxComunas : Option ℕ) :
    List RegionEntorno → EstadoScraper → EstadoScraper
  | [], st => st
  | re :: resto, st =>
    if capAlcanzado maxComunas st.comunasProcesadas then st
    else bucleRegiones mapeo maxComunas resto (procesarRegion mapeo maxComunas re st)

/-- The conditions under which ejecutar_extraccion lets an exception
escape and the run aborts. -/
inductive ErrorFatal
  | sinSesion
  | sinNavegacion
  | sinFiltro
  | sinRegiones
deriving DecidableEq, Repr

/-- The whole remote environment of one run: browser bootstrap outcome,
navigation outcome, division-filter click outcome, enumerated regions. -/
structure Entorno where
  sesionOk : Bool
  navegacionOk : Bool
  filtroOk : Bool
  regiones : List RegionEntorno
deriving DecidableEq, Repr

/-- ejecutar_extraccion: browser bootstrap, navigation and the division
filter activation each escalate on failure, as does an empty region
enumeration; otherwise the region loop runs to completion and the final
matrix is assembled from the Store. -/
def ejecutarExtraccion (mapeo : List (String × String)) (maxComunas : Option ℕ)
    (env : Entorno) : Except ErrorFatal (EstadoScraper × List String × List FilaMatriz) :=
  if !env.sesionOk then .error .sinSesion
  else if !env.navegacionOk then .error .sinNavegacion
  else if !env.filtroOk then .error .sinFiltro
  else if env.regiones.isEmpty then .error .sinRegiones
  else
    let st := bucleRegiones mapeo maxComunas env.regiones estadoInicial
    .ok (st, crearDataframeFinal st.datosCompletos)

/-- The lexicographic comparison is total. -/
theorem leCadena_total : ∀ cs ds : List Char, leCadena cs ds = true ∨ leCadena ds cs = true := by
  intro cs
  induction cs with
  | nil => intro ds; left; rfl
  | cons c cs ih =>
    intro ds
    cases ds with
    | nil => right; rfl
    | cons d ds =>
      by_cases h1 : c < d
      · left; simp [leCadena, h1]
      · by_cases h2 : d < c
        · right; simp [leCadena, h2]
        · have hcd : c = d := le_antisymm (not_lt.mp h2) (not_lt.mp h1)
          subst hcd
          simpa [leCadena, lt_irrefl] using ih ds

/-- The lexicographic comparison is transitive. -/
theorem leCadena_trans :
    ∀ cs ds es : List Char,
      leCadena cs ds = true → leCadena ds es = true → leCadena cs es = true := by
  intro cs
  induction cs with
  | nil => intro ds es _ _; rfl
  | cons c cs ih =>
    intro ds es h1 h2
    cases ds with
    | nil => simp [leCadena] at h1
    | cons d ds =>
      cases es with
      | nil => simp [leCadena] at h2
      | cons e es =>
        by_cases hcd : c < d
        · have hde : d ≤ e := by
            rcases lt_trichotomy d e with h | h | h
            · exact le_of_lt h
            · exact le_of_eq h
            · exfalso
              simp [leCadena, lt_asymm h, h] at h2
          have : c < e := lt_of_lt_of_le hcd hde
          simp [leCadena, this]
        · by_cases hdc : d < c
          · simp [leCadena, hcd, hdc] at h1
          · have hcd2 : c = d := le_antisymm (not_lt.mp hdc) (not_lt.mp hcd)
            subst hcd2
            simp only [leCadena, lt_irrefl, if_false] at h1
            by_cases hce : c < e
            · simp [leCadena, hce]
            · by_cases hec : e < c
              · simp [leCadena, hce, hec] at h2
              · have : c = e := le_antisymm (not_lt.mp hec) (not_lt.mp hce)
                subst this
                simp only [leCadena, lt_irrefl, if_false] at h2 ⊢
                exact ih ds es h1 h2

/-- The lexicographic comparison is antisymmetric. -/
theorem leCadena_antisymm :
    ∀ cs ds : List Char, leCadena cs ds = true → leCadena ds cs = true → cs = ds := by
  intro cs
  induction cs with
  | nil =>
    intro ds _ h2
    cases ds with
    | nil => rfl
    | cons d ds => simp [leCadena] at h2
  | cons c cs ih =>
    intro ds h1 h2
    cases ds with
    | nil => simp [leCadena] at h1
    | cons d ds =>
      by_cases hcd : c < d
      · simp [leCadena, hcd, lt_asymm hcd] at h2
      · by_cases hdc : d < c
        · simp [leCadena, hcd, hdc] at h1
        · have hc : c = d := le_antisymm (not_lt.mp hdc) (not_lt.mp hcd)
          subst hc
          simp only [leCadena, lt_irrefl, if_false] at h1 h2
          rw [ih ds h1 h2]

instance : IsTotal String rStr := ⟨fun s t => leCadena_total s.data t.data⟩

instance : IsTrans String rStr := ⟨fun s t u => leCadena_trans s.data t.data u.data⟩

instance : IsAntisymm String rStr :=
  ⟨fun s t h1 h2 => String.ext (leCadena_antisymm s.data t.data h1 h2)⟩

instance : IsTotal FilaMatriz rFila := by
  constructor
  intro f g
  unfold rFila leFila
  by_cases h : f.region = g.region
  · rw [if_pos h, if_pos h.symm]
    exact leCadena_total f.comuna.data g.comuna.data
  · rw [if_neg h, if_neg (Ne.symm h)]
    exact leCadena_total f.region.data g.region.data

instance : IsTrans FilaMatriz rFila := by
  constructor
  intro f g h hfg hgh
  unfold rFila leFila at hfg hgh ⊢
  by_cases h1 : f.region = g.region
  · by_cases h2 : g.region = h.region
    · rw [if_pos h1] at hfg
      rw [if_pos h2] at hgh
      rw [if_pos (h1.trans h2)]
      exact leCadena_trans _ _ _ hfg hgh
    · have h3 : f.region ≠ h.region := fun he => h2 (h1.symm.trans he)
      rw [if_pos h1] at hfg
      rw [if_neg h2] at hgh
      rw [if_neg h3, h1]
      exact hgh
  · by_cases h2 : g.region = h.region
    · have h3 : f.region ≠ h.region := fun he => h1 (he.trans h2.symm)
      rw [if_neg h1] at hfg
      rw [if_pos h2] at hgh
      rw [if_neg h3, ← h2]
      exact hfg
    · by_cases h3 : f.region = h.region
      · exfalso
        rw [if_neg h1] at hfg
        rw [if_neg h2] at hgh
        rw [h3] at hfg
        have := leCadena_antisymm g.region.data h.region.data hgh hfg
        exact h2 (String.ext this)
      · rw [if_neg h1] at hfg
        rw [if_neg h2] at hgh
        rw [if_neg h3]
        exact leCadena_trans _ _ _ hfg hgh

/-- Keys of a cons, unfolded. -/
theorem dictKeys_cons {α β : Type} (k0 : α) (v0 : β) (l : List (α × β)) :
    dictKeys ((k0, v0) :: l) = k0 :: dictKeys l := rfl

/-- dictInsert on an absent key appends the binding at the end. -/
theorem dictInsert_of_not_mem {α β : Type} [DecidableEq α] (l : List (α × β)) (k : α) (v : β)
    (h : k ∉ dictKeys l) : dictInsert l k v = l ++ [(k, v)] := by
  induction l with
  | nil => rfl
  | cons e resto ih =>
    obtain ⟨k0, v0⟩ := e
    rw [dictKeys_cons, List.mem_cons] at h
    push_neg at h
    obtain ⟨hne, hnm⟩ := h
    simp only [dictInsert]
    rw [if_neg (Ne.symm hne), ih hnm, List.cons_append]

/-- dictInsert on a present key keeps the entry count. -/
theorem length_dictInsert_of_mem {α β : Type} [DecidableEq α]
    (l : List (α × β)) (k : α) (v : β) (h : k ∈ dictKeys l) :
    (dictInsert l k v).length = l.length := by
  induction l with
  | nil => cases h
  | cons e resto ih =>
    obtain ⟨k0, v0⟩ := e
    rw [dictKeys_cons, List.mem_cons] at h
    simp only [dictInsert]
    by_cases he : k0 = k
    · rw [if_pos he]
      simp
    · rw [if_neg he]
      have hm : k ∈ dictKeys resto := by
        rcases h with h | h
        · exact absurd h.symm he
        · exact h
      simp [ih hm]

/-- dictInsert on a present key keeps the key sequence unchanged. -/
theorem dictKeys_dictInsert_of_mem {α β : Type} [DecidableEq α]
    (l : List (α × β)) (k : α) (v : β) (h : k ∈ dictKeys l) :
    dictKeys (dictInsert l k v) = dictKeys l := by
  induction l with
  | nil => cases h
  | cons e resto ih =>
    obtain ⟨k0, v0⟩ := e
    rw [dictKeys_cons, List.mem_cons] at h
    simp only [dictInsert]
    by_cases he : k0 = k
    · rw [if_pos he, dictKeys_cons, dictKeys_cons, he]
    · rw [if_neg he]
      have hm : k ∈ dictKeys resto := by
        rcases h with h | h
        · exact absurd h.symm he
        · exact h
      rw [dictKeys_cons, dictKeys_cons, ih hm]

/-- The inserted binding is always present afterwards. -/
theorem mem_dictInsert_self {α β : Type} [DecidableEq α] (l : List (α × β)) (k : α) (v : β) :
    (k, v) ∈ dictInsert l k v := by
  induction l with
  | nil => simp [dictInsert]
  | cons e resto ih =>
    obtain ⟨k0, v0⟩ := e
    simp only [dictInsert]
    by_cases he : k0 = k
    · rw [if_pos he]
      exact List.mem_cons_self _ _
    · rw [if_neg he]
      exact List.mem_cons_of_mem _ ih

/-- With distinct keys, the only binding of the inserted key afterwards is
the inserted value. -/
theorem eq_of_mem_dictInsert {α β : Type} [DecidableEq α]
    (l : List (α × β)) (k : α) (v : β) (hnd : (dictKeys l).Nodup) :
    ∀ e ∈ dictInsert l k v, e.1 = k → e.2 = v := by
  induction l with
  | nil =>
    intro e he _
    simp [dictInsert] at he
    rw [he]
  | cons e0 resto ih =>
    obtain ⟨k0, v0⟩ := e0
    rw [dictKeys_cons, List.nodup_cons] at hnd
    intro e he hek
    simp only [dictInsert] at he
    by_cases hk : k0 = k
    · rw [if_pos hk, List.mem_cons] at he
      rcases he with he | he
      · rw [he]
      · exfalso
        apply hnd.1
        rw [hk]
        rw [← hek]
        exact List.mem_map_of_mem Prod.fst he
    · rw [if_neg hk, List.mem_cons] at he
      rcases he with he | he
      · exfalso
        apply hk
        rw [← hek, he]
      · exact ih hnd.2 e he hek

/-- A binding with a different key survives dictInsert. -/
theorem mem_dictInsert_of_mem {α β : Type} [DecidableEq α]
    (l : List (α × β)) (k : α) (v : β) (e : α × β) (he : e ∈ l) (hne : e.1 ≠ k) :
    e ∈ dictInsert l k v := by
  induction l with
  | nil => cases he
  | cons e0 resto ih =>
    obtain ⟨k0, v0⟩ := e0
    simp only [dictInsert]
    rw [List.mem_cons] at he
    by_cases hk : k0 = k
    · rw [if_pos hk, List.mem_cons]
      rcases he with he | he
      · exfalso
        apply hne
        rw [he, hk]
      · right; exact he
    · rw [if_neg hk, List.mem_cons]
      rcases he with he | he
      · left; exact he
      · right; exact ih he

/-- dictLookup misses exactly the absent keys. -/
theorem dictLookup_eq_none {α β : Type} [DecidableEq α] (l : List (α × β)) (k : α) :
    dictLookup l k = none ↔ k ∉ dictKeys l := by
  induction l with
  | nil => simp [dictLookup, dictKeys]
  | cons e resto ih =>
    obtain ⟨k0, v0⟩ := e
    rw [dictKeys_cons]
    simp only [dictLookup]
    by_cases hk : k0 = k
    · rw [if_pos hk]
      simp [hk]
    · rw [if_neg hk]
      rw [ih, List.mem_cons]
      constructor
      · intro h hm
        rcases hm with hm | hm
        · exact hk hm.symm
        · exact h hm
      · intro h hm
        exact h (Or.inr hm)

/-- Sortedness of the sorted-set builder. -/
theorem sorted_ordenarConjunto (l : List String) : List.Sorted rStr (ordenarConjunto l) :=
  List.sorted_insertionSort rStr l.dedup

/-- The sorted-set builder is a permutation of the deduplicated input. -/
theorem perm_ordenarConjunto (l : List String) : (ordenarConjunto l).Perm l.dedup :=
  List.perm_insertionSort rStr l.dedup

/-- Membership in the sorted set is membership in the input. -/
theorem mem_ordenarConjunto (a : String) (l : List String) :
    a ∈ ordenarConjunto l ↔ a ∈ l :=
  ((perm_ordenarConjunto l).mem_iff).trans List.mem_dedup

/-- The sorted set has no duplicates. -/
theorem nodup_ordenarConjunto (l : List String) : (ordenarConjunto l).Nodup :=
  (perm_ordenarConjunto l).nodup_iff.mpr (List.nodup_dedup l)

/-- The sorted set is as long as the set of input elements. -/
theorem length_ordenarConjunto (l : List String) :
    (ordenarConjunto l).length = l.toFinset.card := by
  rw [List.card_toFinset]
  exact (perm_ordenarConjunto l).length_eq

/-- Inputs with the same element set sort to the same list. -/
theorem ordenarConjunto_eq_of_toFinset_eq (l1 l2 : List String)
    (h : l1.toFinset = l2.toFinset) : ordenarConjunto l1 = ordenarConjunto l2 := by
  apply List.eq_of_perm_of_sorted _ (sorted_ordenarConjunto l1) (sorted_ordenarConjunto l2)
  refine (perm_ordenarConjunto l1).trans (.trans ?_ (perm_ordenarConjunto l2).symm)
  apply List.perm_of_nodup_nodup_toFinset_eq (List.nodup_dedup l1) (List.nodup_dedup l2)
  ext a
  simp only [List.mem_toFinset, List.mem_dedup]
  rw [← List.mem_toFinset, ← List.mem_toFinset, h]

/-- Upper-casing leaves whitespace characters unchanged. -/
theorem pyToUpper_ws (c : Char) (h : c.isWhitespace) : pyToUpper c = c := by
  unfold pyToUpper
  cases hf : mapaMinMay.find? (fun p => p.1 == c) with
  | none => rfl
  | some p =>
    exfalso
    have hm := List.mem_of_find?_eq_some hf
    have hb := List.find?_some hf
    have hpc : p.1 = c := by rwa [beq_iff_eq] at hb
    have hnw : p.1.isWhitespace = false := by
      have hall : ∀ q ∈ mapaMinMay, q.1.isWhitespace = false := by decide
      exact hall p hm
    rw [hpc] at hnw
    rw [hnw] at h
    exact Bool.noConfusion h

/-- Upper-casing never yields the lower-case letter u. -/
theorem pyToUpper_ne_u (c : Char) : pyToUpper c ≠ 'u' := by
  unfold pyToUpper
  cases hf : mapaMinMay.find? (fun p => p.1 == c) with
  | none =>
    intro hc
    have hn := List.find?_eq_none.mp hf ('u', 'U') (by decide)
    simp only [Option.map_none', Option.getD_none] at hc
    rw [hc] at hn
    exact hn (by decide)
  | some p =>
    have hm := List.mem_of_find?_eq_some hf
    have hall : ∀ q ∈ mapaMinMay, q.2 ≠ 'u' := by decide
    simpa using hall p hm

/-- The split loop never returns an empty list when a word is pending. -/
theorem palabrasAux_acc_ne (cs : List Char) :
    ∀ acc : List Char, acc ≠ [] → palabrasAux cs acc ≠ [] := by
  induction cs with
  | nil =>
    intro acc hacc
    simp only [palabrasAux]
    rw [if_neg (by simpa [List.isEmpty_iff] using hacc)]
    simp
  | cons c cs ih =>
    intro acc hacc
    simp only [palabrasAux]
    by_cases hw : c.isWhitespace
    · rw [if_pos hw, if_neg (by simpa [List.isEmpty_iff] using hacc)]
      simp
    · rw [if_neg hw]
      exact ih (c :: acc) (by simp)

/-- A character list splitting to no words is all whitespace. -/
theorem palabrasAux_ws (cs : List Char) :
    ∀ acc, palabrasAux cs acc = [] → ∀ c ∈ cs, c.isWhitespace := by
  induction cs with
  | nil => intro acc h c hc; cases hc
  | cons c0 cs ih =>
    intro acc h c hc
    simp only [palabrasAux] at h
    by_cases hw : c0.isWhitespace
    · rw [if_pos hw] at h
      rcases List.mem_cons.mp hc with hc1 | hc2
      · rw [hc1]; exact hw
      · by_cases ha : acc.isEmpty
        · rw [if_pos ha] at h
          exact ih [] h c hc2
        · rw [if_neg ha] at h
          cases h
    · rw [if_neg hw] at h
      exact absurd h (palabrasAux_acc_ne cs (c0 :: acc) (by simp))

/-- Words produced by the split are never empty. -/
theorem palabrasAux_mem_ne (cs : List Char) :
    ∀ acc, ∀ w ∈ palabrasAux cs acc, w ≠ "" := by
  induction cs with
  | nil =>
    intro acc w hw
    simp only [palabrasAux] at hw
    by_cases ha : acc.isEmpty
    · rw [if_pos ha] at hw; cases hw
    · rw [if_neg ha] at hw
      rw [List.mem_singleton.mp hw]
      intro h
      have h2 := congrArg String.data h
      simp only at h2
      rw [List.reverse_eq_nil_iff] at h2
      have hane : acc ≠ [] := by simpa [List.isEmpty_iff] using ha
      exact hane h2
  | cons c cs ih =>
    intro acc w hw
    simp only [palabrasAux] at hw
    by_cases hwsp : c.isWhitespace
    · rw [if_pos hwsp] at hw
      by_cases ha : acc.isEmpty
      · rw [if_pos ha] at hw
        exact ih [] w hw
      · rw [if_neg ha] at hw
        rcases List.mem_cons.mp hw with hw1 | hw2
        · rw [hw1]
          intro h
          have h2 := congrArg String.data h
          simp only at h2
          rw [List.reverse_eq_nil_iff] at h2
          have hane : acc ≠ [] := by simpa [List.isEmpty_iff] using ha
          exact hane h2
        · exact ih [] w hw2
    · rw [if_neg hwsp] at hw
      exact ih (c :: acc) w hw

/-- A label splitting to no words strips (after upper-casing) to the
empty string. -/
theorem pyStrip_pyUpper_vacio (s : String) (h : pySplit s = []) :
    pyStrip (pyUpper s) = "" := by
  have hws : ∀ c ∈ s.data, c.isWhitespace := palabrasAux_ws s.data [] h
  have hws2 : ∀ c ∈ (pyUpper s).data, c.isWhitespace = true := by
    intro c hc
    rcases List.mem_map.mp hc with ⟨d, hd, he⟩
    rw [← he, pyToUpper_ws d (hws d hd)]
    exact hws d hd
  apply String.ext
  show (((pyUpper s).data.dropWhile Char.isWhitespace).reverse.dropWhile
      Char.isWhitespace).reverse = []
  rw [List.dropWhile_eq_nil_iff.mpr hws2]
  simp

/-- The slug of a non-empty token is non-empty. -/
theorem slugApellido_ne (u : String) (hu : u ≠ "") : slugApellido u ≠ "" := by
  intro h
  apply hu
  have h2 := congrArg String.data h
  simp only [slugApellido, pyLower] at h2
  rw [List.map_eq_nil_iff, List.map_eq_nil_iff] at h2
  exact String.ext h2

/-- The exact-match pass is the first-match search over the ordered table. -/
theorem buscarExacta_eq_find (mapeo : List (String × String)) (n : String) :
    buscarExacta mapeo n = (mapeo.find? (fun p => n == p.1)).map Prod.snd := by
  induction mapeo with
  | nil => rfl
  | cons p resto ih =>
    obtain ⟨largo, corto⟩ := p
    simp only [buscarExacta]
    by_cases h : n = largo
    · rw [if_pos h, List.find?_cons_of_pos _ (by simpa using h)]
      rfl
    · rw [if_neg h, List.find?_cons_of_neg _ (by simpa using h)]
      exact ih

/-- The partial-match pass is the first-match search over the ordered table. -/
theorem buscarParcial_eq_find (mapeo : List (String × String)) (n : String) :
    buscarParcial mapeo n = (mapeo.find? (fun p => contieneSubStr p.1 n)).map Prod.snd := by
  induction mapeo with
  | nil => rfl
  | cons p resto ih =>
    obtain ⟨largo, corto⟩ := p
    simp only [buscarParcial]
    by_cases h : contieneSubStr largo n = true
    · rw [if_pos h, List.find?_cons_of_pos _ (by simpa using h)]
      rfl
    · rw [if_neg h, List.find?_cons_of_neg _ (by simpa using h)]
      exact ih

/-- An exact-match result is a short form stored in the table. -/
theorem buscarExacta_mem (mapeo : List (String × String)) (n c : String)
    (h : buscarExacta mapeo n = some c) : ∃ p ∈ mapeo, p.2 = c := by
  rw [buscarExacta_eq_find] at h
  cases hf : mapeo.find? (fun p => n == p.1) with
  | none => rw [hf] at h; cases h
  | some p =>
    rw [hf] at h
    simp only [Option.map_some'] at h
    exact ⟨p, List.mem_of_find?_eq_some hf, by simpa using h⟩

/-- A partial-match result is a short form stored in the table. -/
theorem buscarParcial_mem (mapeo : List (String × String)) (n c : String)
    (h : buscarParcial mapeo n = some c) : ∃ p ∈ mapeo, p.2 = c := by
  rw [buscarParcial_eq_find] at h
  cases hf : mapeo.find? (fun p => contieneSubStr p.1 n) with
  | none => rw [hf] at h; cases h
  | some p =>
    rw [hf] at h
    simp only [Option.map_some'] at h
    exact ⟨p, List.mem_of_find?_eq_some hf, by simpa using h⟩

/-- An exact table hit decides the simplified name. -/
theorem simplificar_eq_exacta (mapeo : List (String × String)) (nombre corto : String)
    (h : buscarExacta mapeo (pyStrip (pyUpper nombre)) = some corto) :
    simplificarNombreCandidato mapeo nombre = corto := by
  unfold simplificarNombreCandidato
  rw [h]

/-- With no exact hit, a substring hit decides the simplified name. -/
theorem simplificar_eq_parcial (mapeo : List (String × String)) (nombre corto : String)
    (h1 : buscarExacta mapeo (pyStrip (pyUpper nombre)) = none)
    (h2 : buscarParcial mapeo (pyStrip (pyUpper nombre)) = some corto) :
    simplificarNombreCandidato mapeo nombre = corto := by
  unfold simplificarNombreCandidato
  rw [h1, h2]

/-- With no table hit, the last token decides the simplified name. -/
theorem simplificar_eq_slug (mapeo : List (String × String)) (nombre ultima : String)
    (h1 : buscarExacta mapeo (pyStrip (pyUpper nombre)) = none)
    (h2 : buscarParcial mapeo (pyStrip (pyUpper nombre)) = none)
    (h3 : (pySplit nombre).getLast? = some ultima) :
    simplificarNombreCandidato mapeo nombre = slugApellido ultima := by
  unfold simplificarNombreCandidato
  rw [h1, h2, h3]

/-- With no table hit and no tokens, the sentinel is returned. -/
theorem simplificar_eq_sentinela (mapeo : List (String × String)) (nombre : String)
    (h1 : buscarExacta mapeo (pyStrip (pyUpper nombre)) = none)
    (h2 : buscarParcial mapeo (pyStrip (pyUpper nombre)) = none)
    (h3 : (pySplit nombre).getLast? = none) :
    simplificarNombreCandidato mapeo nombre = "candidato_desconocido" := by
  unfold simplificarNombreCandidato
  rw [h1, h2, h3]

/-- The spec scenario leaf table of claim C4. -/
def tablaEscenarioC4 : List (List String) :=
  [["JUAN PEREZ", "1.234", "45,6"],
   ["BLANCO", "10", "0,4"],
   ["TOTAL EMITIDOS", "1.244", "100,0"]]

/-- C4: on the leaf table [("JUAN PEREZ", "1.234", "45,6"), ("BLANCO",
"10", "0,4"), ("TOTAL EMITIDOS", "1.244", "100,0")] with an empty alias
table, extraction yields candidates = (perez, 1234 votes, 45.6 percent)
and aggregates = (blanco, 10, 0.4) and (emitidos, 1244, 100.0): thousands
separators are stripped from counts, the comma decimal separator is
normalized to a dot, and labels are classified by the blank / void /
total-versus-candidate policy. -/
theorem C4_extraccion_escenario :
    procesarFilas [] tablaEscenarioC4 =
      ([("perez", ⟨1234, 456 / 10⟩)],
       [("blanco", ⟨10, 4 / 10⟩), ("emitidos", ⟨1244, 100⟩)]) := by
  have h : procesarFilas [] tablaEscenarioC4 =
      ([("perez", ⟨1234, ((45 : ℕ) : ℚ) + ((6 : ℕ) : ℚ) / (10 : ℚ) ^ (1 : ℕ)⟩)],
       [("blanco", ⟨10, ((0 : ℕ) : ℚ) + ((4 : ℕ) : ℚ) / (10 : ℚ) ^ (1 : ℕ)⟩),
        ("emitidos", ⟨1244, ((100 : ℕ) : ℚ) + ((0 : ℕ) : ℚ) / (10 : ℚ) ^ (1 : ℕ)⟩)]) := rfl
  rw [h]
  norm_num

/-- C5 counterexample: with the ordered alias table [("juan", "x")] and
the raw label "juan" there is an exact case-insensitive match between the
label and the table key (their upper-cased forms agree), yet the code does
not return that key's short form "x": the comparison upper-cases only the
label, never the key, so a lower-case key misses both passes and the
last-token slug "juan" is returned instead. -/
theorem C5_contraejemplo_insensible :
    pyUpper "juan" = pyUpper "juan" ∧
    simplificarNombreCandidato [("juan", "x")] "juan" = "juan" ∧
    "juan" ≠ "x" :=
  ⟨rfl, rfl, by decide⟩

/-- C5 (amended): for every raw label and ordered alias table, the
simplified name follows the three-stage cascade in table iteration order:
the short form of the first key equal (verbatim) to the upper-cased,
stripped label — case-insensitive only insofar as the label is
upper-cased, the key is compared as written; otherwise the short form of
the first key that is a substring of the upper-cased label; otherwise the
last-token slug, with the sentinel for token-less labels. -/
theorem C5_cascada_ordenada (mapeo : List (String × String)) (nombre : String) :
    simplificarNombreCandidato mapeo nombre =
      match (mapeo.find? (fun p => pyStrip (pyUpper nombre) == p.1)).map Prod.snd with
      | some corto => corto
      | none =>
        match (mapeo.find? (fun p =>
            contieneSubStr p.1 (pyStrip (pyUpper nombre)))).map Prod.snd with
        | some corto => corto
        | none =>
          match (pySplit nombre).getLast? with
          | some ultima => slugApellido ultima
          | none => "candidato_desconocido" := by
  unfold simplificarNombreCandidato
  rw [buscarExacta_eq_find, buscarParcial_eq_find]

/-- C9 counterexample: entity normalization can return the empty string:
with the alias table [("X", "")] the label "X" takes the exact-match pass
and the stored short form, which is empty, is returned verbatim. -/
theorem C9_contraejemplo_vacio :
    simplificarNombreCandidato [("X", "")] "X" = "" := rfl

/-- C9 (amended): entity normalization is total; whenever every alias
table entry has a non-empty key and a non-empty short form, the result is
a non-empty string for every input, and an input whose whitespace-split
token list is empty (in particular the empty string with the empty table)
yields the fixed sentinel. -/
theorem C9_normalizador_total (mapeo : List (String × String)) (nombre : String)
    (hclaves : ∀ p ∈ mapeo, p.1 ≠ "") (hcortos : ∀ p ∈ mapeo, p.2 ≠ "") :
    simplificarNombreCandidato mapeo nombre ≠ "" ∧
    (pySplit nombre = [] →
      simplificarNombreCandidato mapeo nombre = "candidato_desconocido") := by
  constructor
  · cases he : buscarExacta mapeo (pyStrip (pyUpper nombre)) with
    | some corto =>
      rw [simplificar_eq_exacta mapeo nombre corto he]
      obtain ⟨p, hp, hpc⟩ := buscarExacta_mem _ _ _ he
      rw [← hpc]
      exact hcortos p hp
    | none =>
      cases hpz : buscarParcial mapeo (pyStrip (pyUpper nombre)) with
      | some corto =>
        rw [simplificar_eq_parcial mapeo nombre corto he hpz]
        obtain ⟨p, hp, hpc⟩ := buscarParcial_mem _ _ _ hpz
        rw [← hpc]
        exact hcortos p hp
      | none =>
        cases hu : (pySplit nombre).getLast? with
        | some ultima =>
          rw [simplificar_eq_slug mapeo nombre ultima he hpz hu]
          have hmem : ultima ∈ pySplit nombre := by
            obtain ⟨hne, heq⟩ :=
              @List.mem_getLast?_eq_getLast String (pySplit nombre) ultima
                (Option.mem_def.mpr hu)
            rw [heq]
            exact List.getLast_mem hne
          exact slugApellido_ne ultima (palabrasAux_mem_ne nombre.data [] ultima hmem)
        | none =>
          rw [simplificar_eq_sentinela mapeo nombre he hpz hu]
          decide
  · intro hsplit
    have hvacio : pyStrip (pyUpper nombre) = "" := pyStrip_pyUpper_vacio nombre hsplit
    apply simplificar_eq_sentinela
    · rw [buscarExacta_eq_find, hvacio]
      rw [List.find?_eq_none.mpr]
      · rfl
      · intro p hp hb
        exact hclaves p hp (by rw [beq_iff_eq] at hb; exact hb.symm)
    · rw [buscarParcial_eq_find, hvacio]
      rw [List.find?_eq_none.mpr]
      · rfl
      · intro p hp hb
        apply hclaves p hp
        unfold contieneSubStr contieneSub at hb
        apply String.ext
        simpa [List.isEmpty_iff] using hb
    · rw [hsplit]
      rfl

/-- C9 witness: the amended totality theorem applied at the empty alias
table and the empty label. -/
theorem C9_testigo :
    (∀ p ∈ ([] : List (String × String)), p.1 ≠ "") ∧
    (∀ p ∈ ([] : List (String × String)), p.2 ≠ "") ∧
    simplificarNombreCandidato [] "" = "candidato_desconocido" :=
  ⟨fun p hp => absurd hp (List.not_mem_nil p),
   fun p hp => absurd hp (List.not_mem_nil p),
   (C9_normalizador_total [] "" (fun p hp => absurd hp (List.not_mem_nil p))
     (fun p hp => absurd hp (List.not_mem_nil p))).2 rfl⟩

/-- No string starting with the upper-case eñe is a Roman-numeral
exception. -/
theorem no_excepcion_ene (cs : List Char) :
    (⟨'Ñ' :: cs⟩ : String) ∉ excepcionesRomanos := by
  intro h
  have hh : ∀ s ∈ excepcionesRomanos, s.data.head? ≠ some 'Ñ' := by decide
  exact hh _ h rfl

/-- C10 (implicit): inside normalizar_nombre_comuna, a token whose
lower-cased form begins with the lower-case eñe and has at least two
following characters gets BOTH the leading eñe and the character right
after it upper-cased — the transform is the accented letter prepended to
capitalize of the remaining slice — so such a token can never compute to
the proper-name table entry "Ñuñoa"; in particular the raw name "ÑUÑOA"
normalizes to "ÑUñoa", not "Ñuñoa", leaving that table entry unreachable
through normalization. -/
theorem C10_ene_doble_mayuscula :
    (∀ (c1 c2 : Char) (resto : List Char),
      transformarPalabraComuna ⟨'ñ' :: c1 :: c2 :: resto⟩ =
        ⟨'Ñ' :: pyToUpper c1 :: pyToLower c2 :: resto.map pyToLower⟩ ∧
      transformarPalabraComuna ⟨'ñ' :: c1 :: c2 :: resto⟩ ≠ "Ñuñoa") ∧
    normalizarNombreComuna "ÑUÑOA" = "ÑUñoa" ∧ "ÑUñoa" ≠ "Ñuñoa" := by
  refine ⟨?_, rfl, by decide⟩
  intro c1 c2 resto
  have hne : pyUpper ⟨'ñ' :: c1 :: c2 :: resto⟩ ∉ excepcionesRomanos := by
    have heq : pyUpper ⟨'ñ' :: c1 :: c2 :: resto⟩ =
        ⟨'Ñ' :: (c1 :: c2 :: resto).map pyToUpper⟩ := rfl
    rw [heq]
    exact no_excepcion_ene _
  have htrans : transformarPalabraComuna ⟨'ñ' :: c1 :: c2 :: resto⟩ =
      ⟨'Ñ' :: pyToUpper c1 :: pyToLower c2 :: resto.map pyToLower⟩ := by
    unfold transformarPalabraComuna
    rw [if_neg hne]
    rfl
  refine ⟨htrans, ?_⟩
  rw [htrans]
  intro h
  have h2 : some (pyToUpper c1) = some 'u' :=
    congrArg (fun s : String => s.data.tail.head?) h
  exact pyToUpper_ne_u c1 (Option.some.inj h2)

/-- C6: for every Store and every LeafKey already present, re-inserting
under that key overwrites and never duplicates: the Store size and its
key sequence are invariant, every binding of that key afterwards carries
the newly inserted LeafResult, and the subsequently assembled matrix
contains the dense row built from the new data. -/
theorem C6_reinsercion_sobrescribe (datos : Almacen) (k : Clave) (v : RegistroComuna)
    (hk : k ∈ dictKeys datos) (hnd : (dictKeys datos).Nodup) :
    (dictInsert datos k v).length = datos.length ∧
    dictKeys (dictInsert datos k v) = dictKeys datos ∧
    (∀ e ∈ dictInsert datos k v, e.1 = k → e.2 = v) ∧
    filaDe (todosCandidatos (dictInsert datos k v)) (todosTotales (dictInsert datos k v))
        (k, v) ∈ (crearDataframeFinal (dictInsert datos k v)).2 := by
  refine ⟨length_dictInsert_of_mem datos k v hk, dictKeys_dictInsert_of_mem datos k v hk,
    eq_of_mem_dictInsert datos k v hnd, ?_⟩
  have hmem : (k, v) ∈ dictInsert datos k v := mem_dictInsert_self datos k v
  have hmap :
      filaDe (todosCandidatos (dictInsert datos k v)) (todosTotales (dictInsert datos k v))
          (k, v) ∈
        (dictInsert datos k v).map
          (filaDe (todosCandidatos (dictInsert datos k v))
            (todosTotales (dictInsert datos k v))) :=
    List.mem_map_of_mem _ hmem
  exact ((List.perm_insertionSort rFila _).mem_iff).mpr hmap

/-- Concrete Store for the C6 witness. -/
def datosTestigoC6 : Almacen :=
  [(("A", "R"), ⟨[("x", ⟨1, 1⟩)], []⟩)]

/-- New LeafResult for the C6 witness. -/
def registroTestigoC6 : RegistroComuna := ⟨[("y", ⟨2, 2⟩)], []⟩

/-- C6 witness: the overwrite theorem applied at a one-entry Store and
its own key. -/
theorem C6_testigo :
    (("A", "R") ∈ dictKeys datosTestigoC6 ∧ (dictKeys datosTestigoC6).Nodup) ∧
    (dictInsert datosTestigoC6 ("A", "R") registroTestigoC6).length =
      datosTestigoC6.length :=
  ⟨⟨by decide, by decide⟩,
   (C6_reinsercion_sobrescribe datosTestigoC6 ("A", "R") registroTestigoC6
     (by decide) (by decide)).1⟩

/-- C7: assembly emits exactly one row per distinct LeafKey — the rows
are a permutation of the per-entry dense rows, row identities are exactly
the stored (normalized-at-insertion) keys with no duplicates — the rows
come out sorted by region then leaf, and every schema entity absent from
an entry's record is materialized in its row as count 0, share 0.0. -/
theorem C7_ensamblado_filas (datos : Almacen) (hnd : (dictKeys datos).Nodup) :
    ((crearDataframeFinal datos).2).Perm
        (datos.map (filaDe (todosCandidatos datos) (todosTotales datos))) ∧
    ((crearDataframeFinal datos).2.map (fun f => (f.comuna, f.region))).Perm
        (dictKeys datos) ∧
    ((crearDataframeFinal datos).2.map (fun f => (f.comuna, f.region))).Nodup ∧
    List.Sorted rFila (crearDataframeFinal datos).2 ∧
    (∀ e ∈ datos, ∀ n ∈ todosCandidatos datos, n ∉ dictKeys e.2.candidatos →
      (n, (⟨0, 0⟩ : DatosEntidad)) ∈
        (filaDe (todosCandidatos datos) (todosTotales datos) e).celdas) ∧
    (∀ e ∈ datos, ∀ n ∈ todosTotales datos, n ∉ dictKeys e.2.totales →
      (n, (⟨0, 0⟩ : DatosEntidad)) ∈
        (filaDe (todosCandidatos datos) (todosTotales datos) e).celdas) := by
  have hperm : ((crearDataframeFinal datos).2).Perm
      (datos.map (filaDe (todosCandidatos datos) (todosTotales datos))) :=
    List.perm_insertionSort rFila _
  have hmapeq :
      (datos.map (filaDe (todosCandidatos datos) (todosTotales datos))).map
          (fun f => (f.comuna, f.region)) = dictKeys datos := by
    rw [List.map_map]
    rfl
  have hkeys : ((crearDataframeFinal datos).2.map (fun f => (f.comuna, f.region))).Perm
      (dictKeys datos) := by
    rw [← hmapeq]
    exact hperm.map _
  refine ⟨hperm, hkeys, hkeys.nodup_iff.mpr hnd, List.sorted_insertionSort rFila _, ?_, ?_⟩
  · intro e he n hn hnk
    have hlook : dictLookup e.2.candidatos n = none := (dictLookup_eq_none _ _).mpr hnk
    have hcell : (n, (⟨0, 0⟩ : DatosEntidad)) ∈
        (todosCandidatos datos).map
          (fun m => (m, (dictLookup e.2.candidatos m).getD ⟨0, 0⟩)) :=
      List.mem_map.mpr ⟨n, hn, by rw [hlook]; rfl⟩
    exact List.mem_append.mpr (Or.inl hcell)
  · intro e he n hn hnk
    have hlook : dictLookup e.2.totales n = none := (dictLookup_eq_none _ _).mpr hnk
    have hcell : (n, (⟨0, 0⟩ : DatosEntidad)) ∈
        (todosTotales datos).map
          (fun m => (m, (dictLookup e.2.totales m).getD ⟨0, 0⟩)) :=
      List.mem_map.mpr ⟨n, hn, by rw [hlook]; rfl⟩
    exact List.mem_append.mpr (Or.inr hcell)

/-- Concrete Store for the C7 witness. -/
def datosTestigoC7 : Almacen :=
  [(("B", "R"), ⟨[("y", ⟨3, 3⟩)], []⟩),
   (("A", "R"), ⟨[("x", ⟨1, 1⟩)], [("blanco", ⟨2, 2⟩)]⟩)]

/-- C7 witness: the assembly theorem applied at a two-entry Store. -/
theorem C7_testigo :
    (dictKeys datosTestigoC7).Nodup ∧
    List.Sorted rFila (crearDataframeFinal datosTestigoC7).2 :=
  ⟨by decide, (C7_ensamblado_filas datosTestigoC7 (by decide)).2.2.2.1⟩

/-- Candidate names distribute over Store concatenation. -/
theorem nombresCandidatos_append (l1 l2 : Almacen) :
    nombresCandidatos (l1 ++ l2) = nombresCandidatos l1 ++ nombresCandidatos l2 :=
  List.flatMap_append l1 l2 _

/-- Aggregate names distribute over Store concatenation. -/
theorem nombresTotales_append (l1 l2 : Almacen) :
    nombresTotales (l1 ++ l2) = nombresTotales l1 ++ nombresTotales l2 :=
  List.flatMap_append l1 l2 _

/-- A name in a candidate record of a stored entry is in the Store union. -/
theorem mem_unionCandidatos (datos : Almacen) (e : Clave × RegistroComuna)
    (he : e ∈ datos) (n : String) (hn : n ∈ dictKeys e.2.candidatos) :
    n ∈ unionCandidatos datos := by
  rw [unionCandidatos, List.mem_toFinset, nombresCandidatos, List.mem_flatMap]
  exact ⟨e, he, hn⟩

/-- C3: the column schema is exactly the sorted union of entity names
present across the Store at assembly time, candidates before aggregates,
each part sorted with no duplicates; inserting a fresh leaf that carries
exactly one previously-unseen candidate name (its other names already
seen) adds exactly one new column, and every previously-present row shows
count 0, share 0.0 in that column in the re-assembled matrix. -/
theorem C3_esquema_union_dinamico (datos : Almacen) (k : Clave) (r : RegistroComuna)
    (n : String)
    (hn : n ∉ unionCandidatos datos)
    (hr : n ∈ dictKeys r.candidatos)
    (hsub : ∀ m ∈ dictKeys r.candidatos, m ≠ n → m ∈ unionCandidatos datos)
    (ht : ∀ m ∈ dictKeys r.totales, m ∈ unionTotales datos)
    (hk : k ∉ dictKeys datos) :
    (∀ s : Almacen,
      (crearDataframeFinal s).1 = todosCandidatos s ++ todosTotales s ∧
      List.Sorted rStr (todosCandidatos s) ∧ (todosCandidatos s).Nodup ∧
      List.Sorted rStr (todosTotales s) ∧ (todosTotales s).Nodup ∧
      (∀ m, m ∈ todosCandidatos s ↔ m ∈ unionCandidatos s) ∧
      (∀ m, m ∈ todosTotales s ↔ m ∈ unionTotales s)) ∧
    (todosCandidatos (dictInsert datos k r)).length =
      (todosCandidatos datos).length + 1 ∧
    (∀ m, m ∈ todosCandidatos (dictInsert datos k r) ↔
      m = n ∨ m ∈ todosCandidatos datos) ∧
    todosTotales (dictInsert datos k r) = todosTotales datos ∧
    (∀ e ∈ datos,
      (n, (⟨0, 0⟩ : DatosEntidad)) ∈
        (filaDe (todosCandidatos (dictInsert datos k r))
          (todosTotales (dictInsert datos k r)) e).celdas ∧
      filaDe (todosCandidatos (dictInsert datos k r))
          (todosTotales (dictInsert datos k r)) e ∈
        (crearDataframeFinal (dictInsert datos k r)).2) := by
  have hins : dictInsert datos k r = datos ++ [(k, r)] :=
    dictInsert_of_not_mem datos k r hk
  have hnc : nombresCandidatos (dictInsert datos k r) =
      nombresCandidatos datos ++ dictKeys r.candidatos := by
    rw [hins, nombresCandidatos_append]
    simp [nombresCandidatos]
  have hnt : nombresTotales (dictInsert datos k r) =
      nombresTotales datos ++ dictKeys r.totales := by
    rw [hins, nombresTotales_append]
    simp [nombresTotales]
  have hunion : unionCandidatos (dictInsert datos k r) =
      insert n (unionCandidatos datos) := by
    rw [unionCandidatos, hnc, List.toFinset_append]
    ext m
    simp only [Finset.mem_union, List.mem_toFinset, Finset.mem_insert]
    constructor
    · intro hm
      rcases hm with hm | hm
      · right
        rw [unionCandidatos, List.mem_toFinset] at *
        exact hm
      · by_cases hmn : m = n
        · left; exact hmn
        · right; exact hsub m hm hmn
    · intro hm
      rcases hm with hm | hm
      · right
        rw [hm]
        exact hr
      · left
        rw [unionCandidatos, List.mem_toFinset] at hm
        exact hm
  have huniont : (nombresTotales (dictInsert datos k r)).toFinset =
      (nombresTotales datos).toFinset := by
    rw [hnt, List.toFinset_append]
    apply Finset.union_eq_left.mpr
    intro m hm
    rw [List.mem_toFinset] at hm
    exact ht m hm
  have hgen : ∀ s : Almacen,
      (crearDataframeFinal s).1 = todosCandidatos s ++ todosTotales s ∧
      List.Sorted rStr (todosCandidatos s) ∧ (todosCandidatos s).Nodup ∧
      List.Sorted rStr (todosTotales s) ∧ (todosTotales s).Nodup ∧
      (∀ m, m ∈ todosCandidatos s ↔ m ∈ unionCandidatos s) ∧
      (∀ m, m ∈ todosTotales s ↔ m ∈ unionTotales s) := by
    intro s
    refine ⟨rfl, sorted_ordenarConjunto _, nodup_ordenarConjunto _,
      sorted_ordenarConjunto _, nodup_ordenarConjunto _, ?_, ?_⟩
    · intro m
      rw [todosCandidatos, mem_ordenarConjunto, unionCandidatos, List.mem_toFinset]
    · intro m
      rw [todosTotales, mem_ordenarConjunto, unionTotales, List.mem_toFinset]
  have hlen : (todosCandidatos (dictInsert datos k r)).length =
      (todosCandidatos datos).length + 1 := by
    rw [todosCandidatos, todosCandidatos, length_ordenarConjunto, length_ordenarConjunto]
    have h1 : (nombresCandidatos (dictInsert datos k r)).toFinset =
        insert n (unionCandidatos datos) := hunion
    rw [h1, Finset.card_insert_of_not_mem hn]
    rfl
  have hmemiff : ∀ m, m ∈ todosCandidatos (dictInsert datos k r) ↔
      m = n ∨ m ∈ todosCandidatos datos := by
    intro m
    rw [(hgen (dictInsert datos k r)).2.2.2.2.2.1 m, hunion, Finset.mem_insert,
      (hgen datos).2.2.2.2.2.1 m]
  have htot : todosTotales (dictInsert datos k r) = todosTotales datos :=
    ordenarConjunto_eq_of_toFinset_eq _ _ huniont
  refine ⟨hgen, hlen, hmemiff, htot, ?_⟩
  intro e he
  have hnk : n ∉ dictKeys e.2.candidatos := fun hmem => hn (mem_unionCandidatos datos e he n hmem)
  have hlook : dictLookup e.2.candidatos n = none := (dictLookup_eq_none _ _).mpr hnk
  constructor
  · have hcell : (n, (⟨0, 0⟩ : DatosEntidad)) ∈
        (todosCandidatos (dictInsert datos k r)).map
          (fun m => (m, (dictLookup e.2.candidatos m).getD ⟨0, 0⟩)) :=
      List.mem_map.mpr ⟨n, (hmemiff n).mpr (Or.inl rfl), by rw [hlook]; rfl⟩
    exact List.mem_append.mpr (Or.inl hcell)
  · have hmem2 : e ∈ dictInsert datos k r := by
      rw [hins]
      exact List.mem_append_left _ he
    have hmap := List.mem_map_of_mem
      (filaDe (todosCandidatos (dictInsert datos k r))
        (todosTotales (dictInsert datos k r))) hmem2
    exact ((List.perm_insertionSort rFila _).mem_iff).mpr hmap

/-- Concrete Store for the C3 witness. -/
def datosTestigoC3 : Almacen :=
  [(("A", "R"), ⟨[("x", ⟨1, 1⟩)], [("blanco", ⟨2, 2⟩)]⟩)]

/-- Fresh LeafResult carrying one unseen candidate name for the C3 witness. -/
def registroTestigoC3 : RegistroComuna := ⟨[("y", ⟨3, 3⟩)], []⟩

/-- C3 witness: the schema theorem applied at a one-entry Store and a
fresh leaf carrying the unseen candidate name "y". -/
theorem C3_testigo :
    ("y" ∉ unionCandidatos datosTestigoC3 ∧
      "y" ∈ dictKeys registroTestigoC3.candidatos ∧
      ("B", "R") ∉ dictKeys datosTestigoC3) ∧
    (todosCandidatos (dictInsert datosTestigoC3 ("B", "R") registroTestigoC3)).length =
      (todosCandidatos datosTestigoC3).length + 1 :=
  ⟨⟨by decide, by decide, by decide⟩,
   (C3_esquema_union_dinamico datosTestigoC3 ("B", "R") registroTestigoC3 "y"
     (by decide) (by decide)
     (by intro m hm hmn; exact absurd (List.mem_singleton.mp hm) hmn)
     (by intro m hm; exact absurd hm (List.not_mem_nil m))
     (by decide)).2.1⟩

/-- C8: a leaf attempt whose extraction fails (selection failure or
results table not locatable) or yields an empty candidate map increments
only the error counter, inserts nothing into the Store, leaves the
success counter unchanged, and contributes zero rows to the final matrix. -/
theorem C8_fallo_extraccion_local (mapeo : List (String × String))
    (nombreComuna regionNorm : String) (ec : EstadoComuna) (st : EstadoScraper)
    (h : ∀ dc dt, extraerDatosComuna mapeo ec = some (dc, dt) → dc = []) :
    (procesarComunaIndividual mapeo nombreComuna regionNorm ec st).datosCompletos =
      st.datosCompletos ∧
    (procesarComunaIndividual mapeo nombreComuna regionNorm ec st).comunasProcesadas =
      st.comunasProcesadas ∧
    (procesarComunaIndividual mapeo nombreComuna regionNorm ec st).comunasConError =
      st.comunasConError + 1 ∧
    (crearDataframeFinal
        (procesarComunaIndividual mapeo nombreComuna regionNorm ec st).datosCompletos).2 =
      (crearDataframeFinal st.datosCompletos).2 := by
  unfold procesarComunaIndividual
  cases hx : extraerDatosComuna mapeo ec with
  | none => exact ⟨rfl, rfl, rfl, rfl⟩
  | some p =>
    obtain ⟨dc, dt⟩ := p
    have hdc : dc = [] := h dc dt hx
    subst hdc
    exact ⟨rfl, rfl, rfl, rfl⟩

/-- Remote state of the C8 witness: the comuna selection works but no
table at all is rendered, so the results table is not locatable. -/
def comunaSinTabla : EstadoComuna := ⟨true, []⟩

/-- C8 witness: the local-failure theorem applied at a leaf with no
locatable results table, starting from the initial state. -/
theorem C8_testigo :
    (∀ dc dt, extraerDatosComuna [] comunaSinTabla = some (dc, dt) → dc = []) ∧
    (procesarComunaIndividual [] "c1" "R1" comunaSinTabla estadoInicial).comunasConError =
      estadoInicial.comunasConError + 1 :=
  ⟨fun _ _ hx => Option.noConfusion hx,
   (C8_fallo_extraccion_local [] "c1" "R1" comunaSinTabla estadoInicial
     (fun _ _ hx => Option.noConfusion hx)).2.2.1⟩

/-- Success of one leaf attempt: extraction returns a non-empty candidate
record. -/
def extraccionExitosa (mapeo : List (String × String)) (ec : EstadoComuna) : Prop :=
  ∃ dc dt, extraerDatosComuna mapeo ec = some (dc, dt) ∧ dc ≠ []

/-- One leaf attempt, however it ends, bumps the ghost attempt counter by
exactly one. -/
theorem procesar_intentos (mapeo : List (String × String)) (nc rn : String)
    (ec : EstadoComuna) (st : EstadoScraper) :
    (procesarComunaIndividual mapeo nc rn ec st).intentos = st.intentos + 1 := by
  unfold procesarComunaIndividual
  cases extraerDatosComuna mapeo ec with
  | none => rfl
  | some p =>
    obtain ⟨dc, dt⟩ := p
    cases dc with
    | nil => rfl
    | cons c cs => rfl

/-- One leaf attempt grows the success counter by at most one. -/
theorem procesar_procesadas_le (mapeo : List (String × String)) (nc rn : String)
    (ec : EstadoComuna) (st : EstadoScraper) :
    (procesarComunaIndividual mapeo nc rn ec st).comunasProcesadas ≤
      st.comunasProcesadas + 1 := by
  unfold procesarComunaIndividual
  cases extraerDatosComuna mapeo ec with
  | none => exact Nat.le_succ _
  | some p =>
    obtain ⟨dc, dt⟩ := p
    cases dc with
    | nil => exact Nat.le_succ _
    | cons c cs => exact Nat.le_refl _

/-- A successful leaf attempt grows the success counter by exactly one. -/
theorem procesar_procesadas_exitosa (mapeo : List (String × String)) (nc rn : String)
    (ec : EstadoComuna) (st : EstadoScraper) (hex : extraccionExitosa mapeo ec) :
    (procesarComunaIndividual mapeo nc rn ec st).comunasProcesadas =
      st.comunasProcesadas + 1 := by
  obtain ⟨dc, dt, hx, hne⟩ := hex
  unfold procesarComunaIndividual
  rw [hx]
  cases dc with
  | nil => exact absurd rfl hne
  | cons c cs => rfl

/-- With a positive cap, a false cap check means the success counter is
still below the cap. -/
theorem capAlcanzado_false_lt (m p : ℕ) (hm : 0 < m)
    (h : capAlcanzado (some m) p = false) : p < m := by
  simp only [capAlcanzado, Bool.and_eq_false_iff] at h
  rcases h with h | h
  · simp at h
    omega
  · simp at h
    omega

/-- The comuna loop never pushes the success counter past a positive cap. -/
theorem bucleComunas_procesadas_le (mapeo : List (String × String)) (m : ℕ) (hm : 0 < m)
    (rn : String) :
    ∀ (cs : List (String × EstadoComuna)) (st : EstadoScraper),
      st.comunasProcesadas ≤ m →
      (bucleComunas mapeo (some m) rn cs st).comunasProcesadas ≤ m := by
  intro cs
  induction cs with
  | nil => intro st h; exact h
  | cons c resto ih =>
    intro st h
    obtain ⟨nc, ec⟩ := c
    simp only [bucleComunas]
    cases hcap : capAlcanzado (some m) st.comunasProcesadas with
    | true =>
      rw [if_pos rfl]
      exact h
    | false =>
      rw [if_neg Bool.false_ne_true]
      apply ih
      have hlt := capAlcanzado_false_lt m st.comunasProcesadas hm hcap
      have hle := procesar_procesadas_le mapeo nc rn ec st
      omega

/-- Under all-successful attempts the comuna loop advances the attempt
and success counters in lockstep. -/
theorem bucleComunas_exitosas (mapeo : List (String × String)) (maxC : Option ℕ)
    (rn : String) :
    ∀ (cs : List (String × EstadoComuna)) (st : EstadoScraper),
      (∀ ce ∈ cs, extraccionExitosa mapeo ce.2) →
      (bucleComunas mapeo maxC rn cs st).intentos + st.comunasProcesadas =
        st.intentos + (bucleComunas mapeo maxC rn cs st).comunasProcesadas := by
  intro cs
  induction cs with
  | nil => intro st h; rfl
  | cons c resto ih =>
    intro st h
    obtain ⟨nc, ec⟩ := c
    simp only [bucleComunas]
    cases hcap : capAlcanzado maxC st.comunasProcesadas with
    | true =>
      rw [if_pos rfl]
    | false =>
      rw [if_neg Bool.false_ne_true]
      have hint := procesar_intentos mapeo nc rn ec st
      have hproc := procesar_procesadas_exitosa mapeo nc rn ec st
        (h (nc, ec) (List.mem_cons_self _ _))
      have ihr := ih (procesarComunaIndividual mapeo nc rn ec st)
        (fun ce hce => h ce (List.mem_cons_of_mem _ hce))
      omega

/-- Truncation keeps a sublist of the enumerated comunas. -/
theorem limitar_mem {α : Type} (maxC : Option ℕ) (comunas : List α) (a : α)
    (h : a ∈ limitarComunas maxC comunas) : a ∈ comunas := by
  cases maxC with
  | none => exact h
  | some m =>
    simp only [limitarComunas] at h
    by_cases hc : m ≠ 0 ∧ m < comunas.length
    · rw [if_pos hc] at h
      exact List.mem_of_mem_take h
    · rw [if_neg hc] at h
      exact h

/-- One region never pushes the success counter past a positive cap. -/
theorem procesarRegion_procesadas_le (mapeo : List (String × String)) (m : ℕ)
    (hm : 0 < m) (re : RegionEntorno) (st : EstadoScraper)
    (h : st.comunasProcesadas ≤ m) :
    (procesarRegion mapeo (some m) re st).comunasProcesadas ≤ m := by
  unfold procesarRegion
  by_cases hre : re.comunas.isEmpty
  · rw [if_pos hre]
    exact h
  · rw [if_neg hre]
    exact bucleComunas_procesadas_le mapeo m hm _ _ st h

/-- Under all-successful attempts one region advances the attempt and
success counters in lockstep. -/
theorem procesarRegion_exitosas (mapeo : List (String × String)) (maxC : Option ℕ)
    (re : RegionEntorno) (st : EstadoScraper)
    (h : ∀ ce ∈ re.comunas, extraccionExitosa mapeo ce.2) :
    (procesarRegion mapeo maxC re st).intentos + st.comunasProcesadas =
      st.intentos + (procesarRegion mapeo maxC re st).comunasProcesadas := by
  unfold procesarRegion
  by_cases hre : re.comunas.isEmpty
  · rw [if_pos hre]
  · rw [if_neg hre]
    exact bucleComunas_exitosas mapeo maxC _ _ st
      (fun ce hce => h ce (limitar_mem _ _ _ hce))

/-- The region loop never pushes the success counter past a positive cap. -/
theorem bucleRegiones_procesadas_le (mapeo : List (String × String)) (m : ℕ)
    (hm : 0 < m) :
    ∀ (rs : List RegionEntorno) (st : EstadoScraper),
      st.comunasProcesadas ≤ m →
      (bucleRegiones mapeo (some m) rs st).comunasProcesadas ≤ m := by
  intro rs
  induction rs with
  | nil => intro st h; exact h
  | cons re resto ih =>
    intro st h
    simp only [bucleRegiones]
    cases hcap : capAlcanzado (some m) st.comunasProcesadas with
    | true =>
      rw [if_pos rfl]
      exact h
    | false =>
      rw [if_neg Bool.false_ne_true]
      exact ih _ (procesarRegion_procesadas_le mapeo m hm re st h)

/-- Under all-successful attempts the region loop advances the attempt
and success counters in lockstep. -/
theorem bucleRegiones_exitosas (mapeo : List (String × String)) (maxC : Option ℕ) :
    ∀ (rs : List RegionEntorno) (st : EstadoScraper),
      (∀ re ∈ rs, ∀ ce ∈ re.comunas, extraccionExitosa mapeo ce.2) →
      (bucleRegiones mapeo maxC rs st).intentos + st.comunasProcesadas =
        st.intentos + (bucleRegiones mapeo maxC rs st).comunasProcesadas := by
  intro rs
  induction rs with
  | nil => intro st h; rfl
  | cons re resto ih =>
    intro st h
    simp only [bucleRegiones]
    cases hcap : capAlcanzado maxC st.comunasProcesadas with
    | true =>
      rw [if_pos rfl]
    | false =>
      rw [if_neg Bool.false_ne_true]
      have h1 := procesarRegion_exitosas mapeo maxC re st
        (fun ce hce => h re (List.mem_cons_self _ _) ce hce)
      have h2 := ih (procesarRegion mapeo maxC re st)
        (fun r hr ce hce => h r (List.mem_cons_of_mem _ hr) ce hce)
      omega

/-- A comuna selection that renders no tables: its extraction fails. -/
def comunaFallida : EstadoComuna := ⟨true, []⟩

/-- Environment of the C1 counterexample: cap 5, two regions of 3 and 4
leaves, every leaf attempt failing. -/
def entornoC1 : Entorno :=
  ⟨true, true, true,
   [⟨"R1", [("c1", comunaFallida), ("c2", comunaFallida), ("c3", comunaFallida)]⟩,
    ⟨"R2", [("c4", comunaFallida), ("c5", comunaFallida), ("c6", comunaFallida),
            ("c7", comunaFallida)]⟩]⟩

/-- C1 counterexample: with global cap 5 and two regions of 3 and 4
leaves whose attempts all fail, the walk starts all 7 leaf attempts — a
6th leaf attempt IS started — because the cap check compares the cap
against the success counter only, so failed attempts never count toward
it; the walk does not halt after the 5th successful-or-failed transition. -/
theorem C1_contraejemplo_intentos :
    ejecutarExtraccion [] (some 5) entornoC1 =
      .ok (⟨[], 0, 7, 7⟩, [], []) ∧
    ¬ (7 : ℕ) ≤ 5 :=
  ⟨rfl, by decide⟩

/-- C1 (amended): with a positive configured cap, the cap is checked
before each leaf and each region against the count of successful leaf
transitions: the walk halts once that count reaches the cap, so the
success count never exceeds it — and when every attempted leaf succeeds
(so successful-or-failed coincides with successful), no attempt past the
cap is ever started.  Failed attempts do not count toward the cap. -/
theorem C1_tope_global_exitos (mapeo : List (String × String)) (m : ℕ) (env : Entorno)
    (st : EstadoScraper) (schema : List String) (filas : List FilaMatriz)
    (hm : 0 < m)
    (hok : ejecutarExtraccion mapeo (some m) env = .ok (st, schema, filas)) :
    st.comunasProcesadas ≤ m ∧
    ((∀ re ∈ env.regiones, ∀ ce ∈ re.comunas, extraccionExitosa mapeo ce.2) →
      st.intentos ≤ m) := by
  unfold ejecutarExtraccion at hok
  by_cases h1 : env.sesionOk
  · rw [h1] at hok
    simp only [Bool.not_true, Bool.false_eq_true, if_false] at hok
    by_cases h2 : env.navegacionOk
    · rw [h2] at hok
      simp only [Bool.not_true, Bool.false_eq_true, if_false] at hok
      by_cases h3 : env.filtroOk
      · rw [h3] at hok
        simp only [Bool.not_true, Bool.false_eq_true, if_false] at hok
        by_cases h4 : env.regiones.isEmpty
        · rw [if_pos h4] at hok
          cases hok
        · rw [if_neg h4] at hok
          have hst : st = bucleRegiones mapeo (some m) env.regiones estadoInicial := by
            have := congrArg (fun r =>
              match r with
              | Except.ok (p : EstadoScraper × List String × List FilaMatriz) => p.1
              | Except.error _ => estadoInicial) hok
            simpa using this.symm
          subst hst
          constructor
          · exact bucleRegiones_procesadas_le mapeo m hm env.regiones estadoInicial
              (Nat.zero_le m)
          · intro hex
            have h := bucleRegiones_exitosas mapeo (some m) env.regiones estadoInicial hex
            have hp := bucleRegiones_procesadas_le mapeo m hm env.regiones estadoInicial
              (Nat.zero_le m)
            have hz1 : estadoInicial.comunasProcesadas = 0 := rfl
            have hz2 : estadoInicial.intentos = 0 := rfl
            rw [hz1, hz2] at h
            omega
      · rw [Bool.not_eq_true] at h3
        rw [h3] at hok
        cases hok
    · rw [Bool.not_eq_true] at h2
      rw [h2] at hok
      cases hok
  · rw [Bool.not_eq_true] at h1
    rw [h1] at hok
    cases hok

/-- Rendered results table of the C1 witness leaf. -/
def tablaExitosa : Tabla := ⟨true, "CANDIDATO", [["JUAN PEREZ", "10", ""]]⟩

/-- A comuna selection whose extraction succeeds with one candidate. -/
def comunaExitosa : EstadoComuna := ⟨true, [tablaExitosa]⟩

/-- Environment of the C1 witness: one region with one successful leaf. -/
def entornoTestigoC1 : Entorno := ⟨true, true, true, [⟨"R1", [("c1", comunaExitosa)]⟩]⟩

/-- Final state of the C1 witness run. -/
def estadoTestigoC1 : EstadoScraper :=
  ⟨[(("C1", "R1"), ⟨[("perez", ⟨10, 0⟩)], []⟩)], 1, 0, 1⟩

/-- C1 witness: the amended cap theorem applied at cap 5 to an
all-successful one-leaf run. -/
theorem C1_testigo :
    (0 < 5 ∧
      ejecutarExtraccion [] (some 5) entornoTestigoC1 =
        .ok (estadoTestigoC1, ["perez"], [⟨"C1", "R1", [("perez", ⟨10, 0⟩)]⟩])) ∧
    estadoTestigoC1.comunasProcesadas ≤ 5 ∧ estadoTestigoC1.intentos ≤ 5 := by
  have hex : ∀ re ∈ entornoTestigoC1.regiones, ∀ ce ∈ re.comunas,
      extraccionExitosa [] ce.2 := by
    intro re hre ce hce
    have hre2 : re = ⟨"R1", [("c1", comunaExitosa)]⟩ :=
      List.mem_singleton.mp (hre : re ∈ [⟨"R1", [("c1", comunaExitosa)]⟩])
    subst hre2
    have hce2 : ce = ("c1", comunaExitosa) :=
      List.mem_singleton.mp (hce : ce ∈ [("c1", comunaExitosa)])
    subst hce2
    exact ⟨[("perez", ⟨10, 0⟩)], [], rfl, List.cons_ne_nil _ _⟩
  have happ := C1_tope_global_exitos [] 5 entornoTestigoC1 estadoTestigoC1
    ["perez"] [⟨"C1", "R1", [("perez", ⟨10, 0⟩)]⟩] (by decide) rfl
  exact ⟨⟨by decide, rfl⟩, happ.1, happ.2 hex⟩

/-- Environment of the C2 counterexample: a healthy session and a
non-empty region list, but the division-filter click fails. -/
def entornoFiltroFalla : Entorno :=
  ⟨true, true, false, [⟨"R1", [("c1", comunaExitosa)]⟩]⟩

/-- C2 counterexample: a failure while driving one UI selection step —
the División Electoral Chile filter button click — aborts the whole run
even though a session was obtained and regions were enumerable, so
session loss and region absence are not the only run-terminating
conditions. -/
theorem C2_contraejemplo_filtro :
    ejecutarExtraccion [] none entornoFiltroFalla = .error .sinFiltro ∧
    ErrorFatal.sinFiltro ≠ ErrorFatal.sinSesion ∧
    ErrorFatal.sinFiltro ≠ ErrorFatal.sinRegiones :=
  ⟨rfl, by decide, by decide⟩

/-- C2 (amended): the conditions that escalate to run termination are
exactly the setup chain — no automation session, navigation failure,
division-filter activation failure — plus an empty region enumeration;
once setup succeeds and at least one region is enumerated, the run
completes for every per-leaf outcome: per-leaf faults never abort it. -/
theorem C2_escalada_solo_configuracion (mapeo : List (String × String))
    (maxC : Option ℕ) (env : Entorno) :
    (∀ e, ejecutarExtraccion mapeo maxC env = .error e →
      e = .sinSesion ∨ e = .sinNavegacion ∨ e = .sinFiltro ∨ e = .sinRegiones) ∧
    (env.sesionOk = true → env.navegacionOk = true → env.filtroOk = true →
      env.regiones ≠ [] →
      ejecutarExtraccion mapeo maxC env =
        .ok (bucleRegiones mapeo maxC env.regiones estadoInicial,
          crearDataframeFinal
            (bucleRegiones mapeo maxC env.regiones estadoInicial).datosCompletos)) := by
  constructor
  · intro e _
    cases e
    · exact Or.inl rfl
    · exact Or.inr (Or.inl rfl)
    · exact Or.inr (Or.inr (Or.inl rfl))
    · exact Or.inr (Or.inr (Or.inr rfl))
  · intro h1 h2 h3 h4
    unfold ejecutarExtraccion
    rw [h1, h2, h3]
    simp only [Bool.not_true, Bool.false_eq_true, if_false]
    rw [if_neg]
    intro hcon
    exact h4 (List.isEmpty_iff.mp hcon)

/-- Environment of the C2 witness: healthy setup, one region whose only
leaf attempt fails at the selection step. -/
def entornoTestigoC2 : Entorno := ⟨true, true, true, [⟨"R1", [("c1", ⟨false, []⟩)]⟩]⟩

/-- C2 witness: the amended escalation theorem applied at an environment
with a failing leaf — the run still completes. -/
theorem C2_testigo :
    (entornoTestigoC2.sesionOk = true ∧ entornoTestigoC2.regiones ≠ []) ∧
    ejecutarExtraccion [] none entornoTestigoC2 =
      .ok (bucleRegiones [] none entornoTestigoC2.regiones estadoInicial,
        crearDataframeFinal
          (bucleRegiones [] none entornoTestigoC2.regiones estadoInicial).datosCompletos) :=
  ⟨⟨rfl, by decide⟩,
   (C2_escalada_solo_configuracion [] none entornoTestigoC2).2 rfl rfl rfl (by decide)⟩
